import Mathlib

/-
Shallow embedding of the payments engine in src/src/main.rs.

Modelling conventions:
- f64 amounts are modelled as exact rationals (ℚ); the claims are about the
  ledger state machine, whose arithmetic is plain addition and subtraction.
- u16 client ids and u32 transaction ids are modelled as Nat; the u16/u32
  bounds enter through the vector lengths fixed by Engine::new.
- A Vec of length n is modelled by a total function (Nat → α) for its
  contents together with the constant n for its length: v.get(i) is Some of
  the content iff i < n, and a direct indexed write v[i] = x panics when
  i >= n. An operation that can panic returns Option Engine, with none
  modelling the panic; operations whose accesses are all bounds-checked are
  total functions Engine → Engine.
-/

namespace TA

/-- Length of the clients vector: vec![None; u16::MAX as usize] in
Engine::new allocates 65535 slots (indices 0 ..= 65534), one short of
covering client id u16::MAX = 65535 itself. -/
def NCLIENTS : Nat := 65535

/-- Length of the transactions vector and of the disbutes bit vector:
u32::MAX as usize = 4294967295 slots (indices 0 ..= 4294967294), one short
of covering transaction id u32::MAX itself. -/
def NTX : Nat := 4294967295

/-- The Transaction enum of the source (client id, transaction id, and for
deposit/withdrawal the amount). -/
inductive Transaction where
  | Deposit (id : Nat) (tx : Nat) (amount : ℚ)
  | Withdrawal (id : Nat) (tx : Nat) (amount : ℚ)
  | Dispute (id : Nat) (tx : Nat)
  | Resolve (id : Nat) (tx : Nat)
  | Chargeback (id : Nat) (tx : Nat)
deriving DecidableEq

/-- The Client struct of the source. -/
structure Client where
  id : Nat
  available : ℚ
  held : ℚ
  total : ℚ
  locked : Bool
deriving DecidableEq

/-- Client::new. -/
def Client.new (id : Nat) : Client :=
  { id := id, available := 0, held := 0, total := 0, locked := false }

/-- Pointwise update of a vector's contents, modelling an in-bounds
v[i] = x write. -/
def upd {α : Type} (f : Nat → α) (i : Nat) (v : α) : Nat → α :=
  fun j => if j = i then v else f j

/-- The Engine struct: transactions is Vec of f64 (dense, length NTX, every
slot initialised to 0.0, so every in-range transaction id carries a stored
amount, 0.0 when no deposit/withdrawal ever wrote it); clients is Vec of
Option Client (length NCLIENTS); disbutes is a BitVec (length NTX; the
field name keeps the source's spelling). The lengths are fixed by
Engine::new and never change, so the embedding keeps only the contents and
applies the length bound inside each operation. -/
structure Engine where
  transactions : Nat → ℚ
  clients : Nat → Option Client
  disbutes : Nat → Bool

/-- Engine::new. -/
def Engine.new : Engine :=
  { transactions := fun _ => 0
    clients := fun _ => none
    disbutes := fun _ => false }

/-- Engine::transaction (the shared body of Deposit and Withdrawal).
clients.get_mut(id) matches Some(Some(client)) iff id < NCLIENTS and the
slot holds a client; a locked client returns early (before the ledger
write). The fallthrough branch builds a fresh client and writes it with a
direct index (clients[id] = Some(client)), which panics when
id >= NCLIENTS; the final transactions[tx] = amount write panics when
tx >= NTX. none models such a panic. -/
def Engine.transaction (e : Engine) (id tx : Nat) (amount : ℚ) : Option Engine :=
  if id < NCLIENTS then
    match e.clients id with
    | some c =>
      if c.locked then
        some e
      else
        let c1 := { c with total := c.total + amount, available := c.available + amount }
        let e1 := { e with clients := upd e.clients id (some c1) }
        if tx < NTX then
          some { e1 with transactions := upd e1.transactions tx amount }
        else
          none
    | none =>
      let c1 := { Client.new id with available := amount, total := amount }
      let e1 := { e with clients := upd e.clients id (some c1) }
      if tx < NTX then
        some { e1 with transactions := upd e1.transactions tx amount }
      else
        none
  else
    none

/-- Engine::dispute. The guards are clients.get_mut(id) returning
Some(Some(client)) and transactions.get(tx) returning Some(amount); the
latter holds for every tx < NTX because the vector is dense. The stored
amount is moved from available to held and the dispute bit is set; there is
no check of the dispute flag, of the locked flag, or of which client's
deposit/withdrawal recorded tx. All accesses are bounds-checked, so the
operation is total. -/
def Engine.dispute (e : Engine) (id tx : Nat) : Engine :=
  if id < NCLIENTS then
    match e.clients id with
    | some c =>
      if tx < NTX then
        let amount := e.transactions tx
        { e with
          clients := upd e.clients id
            (some { c with available := c.available - amount, held := c.held + amount })
          disbutes := upd e.disbutes tx true }
      else
        e
    | none => e
  else
    e

/-- Engine::resolve. Same guards as dispute plus
Some(true) == disbutes.get(tx), which holds iff tx < NTX and the bit is
set (both vectors have length NTX). -/
def Engine.resolve (e : Engine) (id tx : Nat) : Engine :=
  if id < NCLIENTS then
    match e.clients id with
    | some c =>
      if tx < NTX then
        if e.disbutes tx then
          let amount := e.transactions tx
          { e with
            clients := upd e.clients id
              (some { c with available := c.available + amount, held := c.held - amount })
            disbutes := upd e.disbutes tx false }
        else
          e
      else
        e
    | none => e
  else
    e

/-- Engine::chargeback. Same guards as resolve; decreases total and held by
the stored amount, sets locked and clears the dispute bit. -/
def Engine.chargeback (e : Engine) (id tx : Nat) : Engine :=
  if id < NCLIENTS then
    match e.clients id with
    | some c =>
      if tx < NTX then
        if e.disbutes tx then
          let amount := e.transactions tx
          { e with
            clients := upd e.clients id
              (some { c with total := c.total - amount, held := c.held - amount, locked := true })
            disbutes := upd e.disbutes tx false }
        else
          e
      else
        e
    | none => e
  else
    e

/-- Engine::handle_record: dispatch on the event variant; a Withdrawal is a
transaction with the amount negated. -/
def Engine.handle_record (e : Engine) (r : Transaction) : Option Engine :=
  match r with
  | Transaction.Deposit id tx amount => e.transaction id tx amount
  | Transaction.Withdrawal id tx amount => e.transaction id tx (-amount)
  | Transaction.Dispute id tx => some (e.dispute id tx)
  | Transaction.Resolve id tx => some (e.resolve id tx)
  | Transaction.Chargeback id tx => some (e.chargeback id tx)

/-- Applying a list of events strictly in order (the read loop of
read_file / from_str); none propagates a panic. -/
def Engine.run (e : Engine) : List Transaction → Option Engine
  | [] => some e
  | r :: rs =>
    match e.handle_record r with
    | some e1 => e1.run rs
    | none => none

/-- Observation used by the round-trip claims: a client's
(available, total) pair, none when the slot is empty. -/
def Engine.availTotal (e : Engine) (id : Nat) : Option (ℚ × ℚ) :=
  (e.clients id).map fun c => (c.available, c.total)

/-! Concrete scenario states shared by witnesses and counterexamples
below. Rational arithmetic is left unevaluated (2 - 2 rather than 0) so
that every concrete fact about these states holds by rfl. -/

/-- State after Deposit(1, 1, 2.0) from a fresh engine: account 1 holds
available = 2, held = 0, total = 2, and the ledger stores 2 at tx 1. -/
def egAfterDeposit : Engine :=
  (Engine.new.run [Transaction.Deposit 1 1 2]).getD Engine.new

/-- State after Deposit(1, 1, 2.0) then Dispute(1, 1): tx 1 is disputed and
its amount is held. -/
def egAfterDispute : Engine :=
  (Engine.new.run [Transaction.Deposit 1 1 2, Transaction.Dispute 1 1]).getD Engine.new

/-- State after Deposit(1, 1, 2.0), Dispute(1, 1), Chargeback(1, 1):
account 1 is locked with every balance zero. -/
def egLocked : Engine :=
  (Engine.new.run [Transaction.Deposit 1 1 2, Transaction.Dispute 1 1,
    Transaction.Chargeback 1 1]).getD Engine.new

/-- The locked account of egLocked, fields as the run leaves them. -/
def egLockedClient : Client :=
  { id := 1, available := 2 - 2, held := 0 + 2 - 2, total := 2 - 2, locked := true }

/-- egLocked after a further Dispute(1, 1): the dispute path ignores the
lock, so tx 1 is disputed again on the locked account. -/
def egLockedDisputed : Engine := egLocked.dispute 1 1

/-- The locked account of egLockedDisputed. -/
def egLockedDisputedClient : Client :=
  { id := 1, available := 2 - 2 - 2, held := 0 + 2 - 2 + 2, total := 2 - 2, locked := true }

/-- State after Deposit(2, 7, 5.0) then Deposit(1, 8, 3.0): transaction 7
was recorded by account 2, account 1 exists with available = total = 3. -/
def egCross : Engine :=
  (Engine.new.run [Transaction.Deposit 2 7 5, Transaction.Deposit 1 8 3]).getD Engine.new

/-- The engine a fresh run of the single event Deposit(1, 1, 2.0) yields,
written out field by field. -/
def w1engine : Engine :=
  { transactions := upd Engine.new.transactions 1 2
    clients := upd Engine.new.clients 1
      (some { id := 1, available := 2, held := 0, total := 2, locked := false })
    disbutes := Engine.new.disbutes }

/-! Helper lemmas: pointwise characterisation of upd, and the applied /
no-op characterisations of each engine operation. -/

theorem upd_same {α : Type} (f : Nat → α) (i : Nat) (v : α) : upd f i v i = v := by
  simp [upd]

theorem upd_other {α : Type} (f : Nat → α) {i j : Nat} (v : α) (h : j ≠ i) :
    upd f i v j = f j := by
  simp [upd, h]

theorem transaction_locked_noop (e : Engine) (id tx : Nat) (a : ℚ) (c : Client)
    (hid : id < NCLIENTS) (hc : e.clients id = some c) (hl : c.locked = true) :
    e.transaction id tx a = some e := by
  simp [Engine.transaction, hid, hc, hl]

theorem transaction_unlocked (e : Engine) (id tx : Nat) (a : ℚ) (c : Client)
    (hid : id < NCLIENTS) (hc : e.clients id = some c) (hl : c.locked = false)
    (htx : tx < NTX) :
    e.transaction id tx a =
      some { e with
        clients := upd e.clients id
          (some { c with total := c.total + a, available := c.available + a })
        transactions := upd e.transactions tx a } := by
  simp [Engine.transaction, hid, hc, hl, htx]

theorem transaction_new_client (e : Engine) (id tx : Nat) (a : ℚ)
    (hid : id < NCLIENTS) (hc : e.clients id = none) (htx : tx < NTX) :
    e.transaction id tx a =
      some { e with
        clients := upd e.clients id
          (some { id := id, available := a, held := 0, total := a, locked := false })
        transactions := upd e.transactions tx a } := by
  simp [Engine.transaction, hid, hc, htx, Client.new]

theorem transaction_panics (e : Engine) (id tx : Nat) (a : ℚ)
    (h : NCLIENTS ≤ id ∨ ((e.clients id).map Client.locked ≠ some true ∧ NTX ≤ tx)) :
    e.transaction id tx a = none := by
  rcases h with h | ⟨hnl, htx⟩
  · simp [Engine.transaction, Nat.not_lt.mpr h]
  · cases hco : e.clients id with
    | none => simp [Engine.transaction, hco, Nat.not_lt.mpr htx]
    | some c =>
      rw [hco] at hnl
      have hl : c.locked = false := by
        cases hcl : c.locked
        · rfl
        · exact absurd (by simp [hcl]) hnl
      simp [Engine.transaction, hco, hl, Nat.not_lt.mpr htx]

theorem dispute_applied (e : Engine) (id tx : Nat) (c : Client)
    (hid : id < NCLIENTS) (hc : e.clients id = some c) (htx : tx < NTX) :
    e.dispute id tx =
      { e with
        clients := upd e.clients id
          (some { c with available := c.available - e.transactions tx
                         held := c.held + e.transactions tx })
        disbutes := upd e.disbutes tx true } := by
  simp [Engine.dispute, hid, hc, htx]

theorem dispute_noop (e : Engine) (id tx : Nat)
    (h : NCLIENTS ≤ id ∨ e.clients id = none ∨ NTX ≤ tx) : e.dispute id tx = e := by
  rcases h with h | h | h
  · simp [Engine.dispute, Nat.not_lt.mpr h]
  · simp [Engine.dispute, h]
  · cases hco : e.clients id <;> simp [Engine.dispute, hco, Nat.not_lt.mpr h]

theorem resolve_applied (e : Engine) (id tx : Nat) (c : Client)
    (hid : id < NCLIENTS) (hc : e.clients id = some c) (htx : tx < NTX)
    (hd : e.disbutes tx = true) :
    e.resolve id tx =
      { e with
        clients := upd e.clients id
          (some { c with available := c.available + e.transactions tx
                         held := c.held - e.transactions tx })
        disbutes := upd e.disbutes tx false } := by
  simp [Engine.resolve, hid, hc, htx, hd]

theorem resolve_noop (e : Engine) (id tx : Nat)
    (h : NCLIENTS ≤ id ∨ e.clients id = none ∨ NTX ≤ tx ∨ e.disbutes tx = false) :
    e.resolve id tx = e := by
  rcases h with h | h | h | h
  · simp [Engine.resolve, Nat.not_lt.mpr h]
  · simp [Engine.resolve, h]
  · cases hco : e.clients id <;> simp [Engine.resolve, hco, Nat.not_lt.mpr h]
  · cases hco : e.clients id <;> simp [Engine.resolve, hco, h]

theorem chargeback_applied (e : Engine) (id tx : Nat) (c : Client)
    (hid : id < NCLIENTS) (hc : e.clients id = some c) (htx : tx < NTX)
    (hd : e.disbutes tx = true) :
    e.chargeback id tx =
      { e with
        clients := upd e.clients id
          (some { c with total := c.total - e.transactions tx
                         held := c.held - e.transactions tx
                         locked := true })
        disbutes := upd e.disbutes tx false } := by
  simp [Engine.chargeback, hid, hc, htx, hd]

theorem chargeback_noop (e : Engine) (id tx : Nat)
    (h : NCLIENTS ≤ id ∨ e.clients id = none ∨ NTX ≤ tx ∨ e.disbutes tx = false) :
    e.chargeback id tx = e := by
  rcases h with h | h | h | h
  · simp [Engine.chargeback, Nat.not_lt.mpr h]
  · simp [Engine.chargeback, h]
  · cases hco : e.clients id <;> simp [Engine.chargeback, hco, Nat.not_lt.mpr h]
  · cases hco : e.clients id <;> simp [Engine.chargeback, hco, h]

/-! The balance invariant total = available + held, and its preservation by
every operation. -/

/-- Every client slot that holds a client satisfies
total = available + held. -/
def Engine.balanced (e : Engine) : Prop :=
  ∀ id c, e.clients id = some c → c.total = c.available + c.held

theorem balanced_new : Engine.new.balanced := by
  intro id c hc
  simp [Engine.new] at hc

theorem balanced_upd (e : Engine) (id : Nat) (c1 : Client) (t : Nat → ℚ) (d : Nat → Bool)
    (hb : e.balanced) (hc1 : c1.total = c1.available + c1.held) :
    Engine.balanced
      { transactions := t, clients := upd e.clients id (some c1), disbutes := d } := by
  intro id1 c2 hc2
  simp only at hc2
  by_cases hji : id1 = id
  · subst hji
    rw [upd_same] at hc2
    cases hc2
    exact hc1
  · rw [upd_other _ _ hji] at hc2
    exact hb id1 c2 hc2

theorem balanced_transaction (e e1 : Engine) (id tx : Nat) (a : ℚ)
    (hb : e.balanced) (h : e.transaction id tx a = some e1) : e1.balanced := by
  by_cases hid : id < NCLIENTS
  · cases hco : e.clients id with
    | some c =>
      by_cases hl : c.locked = true
      · rw [transaction_locked_noop e id tx a c hid hco hl] at h
        cases h
        exact hb
      · by_cases htx : tx < NTX
        · rw [transaction_unlocked e id tx a c hid hco (by simpa using hl) htx] at h
          cases h
          refine balanced_upd e id _ _ _ hb ?_
          have hbc := hb id c hco
          simp only
          rw [hbc]
          ring
        · rw [transaction_panics e id tx a
            (Or.inr ⟨by simp [hco, hl], Nat.not_lt.mp htx⟩)] at h
          cases h
    | none =>
      by_cases htx : tx < NTX
      · rw [transaction_new_client e id tx a hid hco htx] at h
        cases h
        refine balanced_upd e id _ _ _ hb ?_
        simp
      · rw [transaction_panics e id tx a
          (Or.inr ⟨by simp [hco], Nat.not_lt.mp htx⟩)] at h
        cases h
  · rw [transaction_panics e id tx a (Or.inl (Nat.not_lt.mp hid))] at h
    cases h

theorem balanced_dispute (e : Engine) (id tx : Nat) (hb : e.balanced) :
    (e.dispute id tx).balanced := by
  by_cases hid : id < NCLIENTS
  · cases hco : e.clients id with
    | some c =>
      by_cases htx : tx < NTX
      · rw [dispute_applied e id tx c hid hco htx]
        refine balanced_upd e id _ _ _ hb ?_
        have hbc := hb id c hco
        simp only
        rw [hbc]
        ring
      · rw [dispute_noop e id tx (Or.inr (Or.inr (Nat.not_lt.mp htx)))]
        exact hb
    | none =>
      rw [dispute_noop e id tx (Or.inr (Or.inl hco))]
      exact hb
  · rw [dispute_noop e id tx (Or.inl (Nat.not_lt.mp hid))]
    exact hb

theorem balanced_resolve (e : Engine) (id tx : Nat) (hb : e.balanced) :
    (e.resolve id tx).balanced := by
  by_cases hid : id < NCLIENTS
  · cases hco : e.clients id with
    | some c =>
      by_cases htx : tx < NTX
      · cases hd : e.disbutes tx with
        | true =>
          rw [resolve_applied e id tx c hid hco htx hd]
          refine balanced_upd e id _ _ _ hb ?_
          have hbc := hb id c hco
          simp only
          rw [hbc]
          ring
        | false =>
          rw [resolve_noop e id tx (Or.inr (Or.inr (Or.inr hd)))]
          exact hb
      · rw [resolve_noop e id tx (Or.inr (Or.inr (Or.inl (Nat.not_lt.mp htx))))]
        exact hb
    | none =>
      rw [resolve_noop e id tx (Or.inr (Or.inl hco))]
      exact hb
  · rw [resolve_noop e id tx (Or.inl (Nat.not_lt.mp hid))]
    exact hb

theorem balanced_chargeback (e : Engine) (id tx : Nat) (hb : e.balanced) :
    (e.chargeback id tx).balanced := by
  by_cases hid : id < NCLIENTS
  · cases hco : e.clients id with
    | some c =>
      by_cases htx : tx < NTX
      · cases hd : e.disbutes tx with
        | true =>
          rw [chargeback_applied e id tx c hid hco htx hd]
          refine balanced_upd e id _ _ _ hb ?_
          have hbc := hb id c hco
          simp only
          rw [hbc]
          ring
        | false =>
          rw [chargeback_noop e id tx (Or.inr (Or.inr (Or.inr hd)))]
          exact hb
      · rw [chargeback_noop e id tx (Or.inr (Or.inr (Or.inl (Nat.not_lt.mp htx))))]
        exact hb
    | none =>
      rw [chargeback_noop e id tx (Or.inr (Or.inl hco))]
      exact hb
  · rw [chargeback_noop e id tx (Or.inl (Nat.not_lt.mp hid))]
    exact hb

theorem balanced_step (e e1 : Engine) (r : Transaction)
    (hb : e.balanced) (h : e.handle_record r = some e1) : e1.balanced := by
  cases r with
  | Deposit id tx a => exact balanced_transaction e e1 id tx a hb h
  | Withdrawal id tx a => exact balanced_transaction e e1 id tx (-a) hb h
  | Dispute id tx =>
    simp only [Engine.handle_record] at h
    cases h
    exact balanced_dispute e id tx hb
  | Resolve id tx =>
    simp only [Engine.handle_record] at h
    cases h
    exact balanced_resolve e id tx hb
  | Chargeback id tx =>
    simp only [Engine.handle_record] at h
    cases h
    exact balanced_chargeback e id tx hb

theorem balanced_run (tr : List Transaction) :
    ∀ e e1 : Engine, e.balanced → e.run tr = some e1 → e1.balanced := by
  induction tr with
  | nil =>
    intro e e1 hb h
    simp only [Engine.run] at h
    cases h
    exact hb
  | cons r rs ih =>
    intro e e1 hb h
    simp only [Engine.run] at h
    cases hs : e.handle_record r with
    | none =>
      rw [hs] at h
      cases h
    | some e2 =>
      rw [hs] at h
      exact ih e2 e1 (balanced_step e e2 r hb hs) h

/-! Lock persistence: once a client slot holds a locked client, every later
event leaves a locked client in that slot (chargeback is the only writer of
the locked flag and only ever sets it). -/

theorem locked_map_upd (e : Engine) (id id1 : Nat) (c1 : Client)
    (hl : (e.clients id).map Client.locked = some true)
    (hkeep : id = id1 → c1.locked = true) :
    (upd e.clients id1 (some c1) id).map Client.locked = some true := by
  by_cases hji : id = id1
  · subst hji
    rw [upd_same]
    simp [hkeep rfl]
  · rw [upd_other _ _ hji]
    exact hl

theorem locked_transaction (e e1 : Engine) (id id1 tx : Nat) (a : ℚ)
    (hl : (e.clients id).map Client.locked = some true)
    (h : e.transaction id1 tx a = some e1) :
    (e1.clients id).map Client.locked = some true := by
  by_cases hid1 : id1 < NCLIENTS
  · cases hco1 : e.clients id1 with
    | some c1 =>
      by_cases hl1 : c1.locked = true
      · rw [transaction_locked_noop e id1 tx a c1 hid1 hco1 hl1] at h
        cases h
        exact hl
      · by_cases htx : tx < NTX
        · rw [transaction_unlocked e id1 tx a c1 hid1 hco1 (by simpa using hl1) htx] at h
          cases h
          refine locked_map_upd e id id1 _ hl ?_
          intro hji
          subst hji
          rw [hco1] at hl
          exact absurd (by simpa using hl) hl1
        · rw [transaction_panics e id1 tx a
            (Or.inr ⟨by simp [hco1, hl1], Nat.not_lt.mp htx⟩)] at h
          cases h
    | none =>
      by_cases htx : tx < NTX
      · rw [transaction_new_client e id1 tx a hid1 hco1 htx] at h
        cases h
        refine locked_map_upd e id id1 _ hl ?_
        intro hji
        subst hji
        rw [hco1] at hl
        simp at hl
      · rw [transaction_panics e id1 tx a
          (Or.inr ⟨by simp [hco1], Nat.not_lt.mp htx⟩)] at h
        cases h
  · rw [transaction_panics e id1 tx a (Or.inl (Nat.not_lt.mp hid1))] at h
    cases h

theorem locked_dispute (e : Engine) (id id1 tx : Nat)
    (hl : (e.clients id).map Client.locked = some true) :
    ((e.dispute id1 tx).clients id).map Client.locked = some true := by
  by_cases hid1 : id1 < NCLIENTS
  · cases hco1 : e.clients id1 with
    | some c1 =>
      by_cases htx : tx < NTX
      · rw [dispute_applied e id1 tx c1 hid1 hco1 htx]
        refine locked_map_upd e id id1 _ hl ?_
        intro hji
        subst hji
        rw [hco1] at hl
        simpa using hl
      · rw [dispute_noop e id1 tx (Or.inr (Or.inr (Nat.not_lt.mp htx)))]
        exact hl
    | none =>
      rw [dispute_noop e id1 tx (Or.inr (Or.inl hco1))]
      exact hl
  · rw [dispute_noop e id1 tx (Or.inl (Nat.not_lt.mp hid1))]
    exact hl

theorem locked_resolve (e : Engine) (id id1 tx : Nat)
    (hl : (e.clients id).map Client.locked = some true) :
    ((e.resolve id1 tx).clients id).map Client.locked = some true := by
  by_cases hid1 : id1 < NCLIENTS
  · cases hco1 : e.clients id1 with
    | some c1 =>
      by_cases htx : tx < NTX
      · cases hd : e.disbutes tx with
        | true =>
          rw [resolve_applied e id1 tx c1 hid1 hco1 htx hd]
          refine locked_map_upd e id id1 _ hl ?_
          intro hji
          subst hji
          rw [hco1] at hl
          simpa using hl
        | false =>
          rw [resolve_noop e id1 tx (Or.inr (Or.inr (Or.inr hd)))]
          exact hl
      · rw [resolve_noop e id1 tx (Or.inr (Or.inr (Or.inl (Nat.not_lt.mp htx))))]
        exact hl
    | none =>
      rw [resolve_noop e id1 tx (Or.inr (Or.inl hco1))]
      exact hl
  · rw [resolve_noop e id1 tx (Or.inl (Nat.not_lt.mp hid1))]
    exact hl

theorem locked_chargeback (e : Engine) (id id1 tx : Nat)
    (hl : (e.clients id).map Client.locked = some true) :
    ((e.chargeback id1 tx).clients id).map Client.locked = some true := by
  by_cases hid1 : id1 < NCLIENTS
  · cases hco1 : e.clients id1 with
    | some c1 =>
      by_cases htx : tx < NTX
      · cases hd : e.disbutes tx with
        | true =>
          rw [chargeback_applied e id1 tx c1 hid1 hco1 htx hd]
          exact locked_map_upd e id id1 _ hl (fun _ => rfl)
        | false =>
          rw [chargeback_noop e id1 tx (Or.inr (Or.inr (Or.inr hd)))]
          exact hl
      · rw [chargeback_noop e id1 tx (Or.inr (Or.inr (Or.inl (Nat.not_lt.mp htx))))]
        exact hl
    | none =>
      rw [chargeback_noop e id1 tx (Or.inr (Or.inl hco1))]
      exact hl
  · rw [chargeback_noop e id1 tx (Or.inl (Nat.not_lt.mp hid1))]
    exact hl

theorem locked_step (e e1 : Engine) (r : Transaction) (id : Nat)
    (hl : (e.clients id).map Client.locked = some true)
    (h : e.handle_record r = some e1) :
    (e1.clients id).map Client.locked = some true := by
  cases r with
  | Deposit id1 tx a => exact locked_transaction e e1 id id1 tx a hl h
  | Withdrawal id1 tx a => exact locked_transaction e e1 id id1 tx (-a) hl h
  | Dispute id1 tx =>
    simp only [Engine.handle_record] at h
    cases h
    exact locked_dispute e id id1 tx hl
  | Resolve id1 tx =>
    simp only [Engine.handle_record] at h
    cases h
    exact locked_resolve e id id1 tx hl
  | Chargeback id1 tx =>
    simp only [Engine.handle_record] at h
    cases h
    exact locked_chargeback e id id1 tx hl

theorem locked_run (tr : List Transaction) :
    ∀ e e1 : Engine, ∀ id : Nat, (e.clients id).map Client.locked = some true →
      e.run tr = some e1 → (e1.clients id).map Client.locked = some true := by
  induction tr with
  | nil =>
    intro e e1 id hl h
    simp only [Engine.run] at h
    cases h
    exact hl
  | cons r rs ih =>
    intro e e1 id hl h
    simp only [Engine.run] at h
    cases hs : e.handle_record r with
    | none =>
      rw [hs] at h
      cases h
    | some e2 =>
      rw [hs] at h
      exact ih e2 e1 id (locked_step e e2 r id hl hs) h

/-! The claims. -/

/-- C1: for every sequence of events applied from a fresh engine (the run
not having panicked), every account of the resulting state — lazily created
ones included, whatever mix of Deposit, Withdrawal, Dispute, Resolve and
Chargeback ran — satisfies total = available + held. Every prefix of a run
is itself a run from the fresh engine, so the invariant holds after each
event of any sequence. -/
theorem c1_total_invariant (tr : List Transaction) (e1 : Engine)
    (h : Engine.run Engine.new tr = some e1) (id : Nat) (c : Client)
    (hc : e1.clients id = some c) : c.total = c.available + c.held :=
  balanced_run tr Engine.new e1 balanced_new h id c hc

theorem c1_total_invariant_witness :
    Engine.run Engine.new [Transaction.Deposit 1 1 2] = some w1engine ∧
    w1engine.clients 1 =
      some { id := 1, available := 2, held := 0, total := 2, locked := false } ∧
    (2 : ℚ) = 2 + 0 :=
  ⟨rfl, rfl,
    c1_total_invariant [Transaction.Deposit 1 1 2] w1engine rfl 1
      { id := 1, available := 2, held := 0, total := 2, locked := false } rfl⟩

/-- C2 counterexample: a double Dispute is not ignored. After
Deposit(1, 1, 2.0) and Dispute(1, 1), a second Dispute(1, 1) changes
account 1 again (available drops from 0 to -2, held rises from 2 to 4),
because Engine::dispute never reads the dispute flag before applying. -/
theorem c2_counterexample :
    ((Engine.new.run [Transaction.Deposit 1 1 2, Transaction.Dispute 1 1,
        Transaction.Dispute 1 1]).getD Engine.new).clients 1 ≠
      ((Engine.new.run [Transaction.Deposit 1 1 2, Transaction.Dispute 1 1]).getD
        Engine.new).clients 1 := by
  intro h
  have h1 :
      ({ id := 1, available := 2 - 2 - 2, held := 0 + 2 + 2, total := 2,
         locked := false } : Client) =
        { id := 1, available := 2 - 2, held := 0 + 2, total := 2, locked := false } :=
    Option.some.inj h
  have h2 := congrArg Client.available h1
  norm_num at h2

/-- C2 (amended): a Resolve or Chargeback naming a transaction whose
dispute flag is not set changes no state; but a second Dispute on a
transaction already marked disputed is not ignored — the dispute path never
reads the flag, so it moves the stored amount from available to held once
more (and leaves the flag set). -/
theorem c2_amended_redundant_transitions :
    (∀ (e : Engine) (id tx : Nat), e.disbutes tx = false → e.resolve id tx = e) ∧
    (∀ (e : Engine) (id tx : Nat), e.disbutes tx = false → e.chargeback id tx = e) ∧
    (∀ (e : Engine) (id tx : Nat) (c : Client), id < NCLIENTS → e.clients id = some c →
      tx < NTX → e.disbutes tx = true →
      (e.dispute id tx).clients id =
        some { c with available := c.available - e.transactions tx
                      held := c.held + e.transactions tx } ∧
      (e.dispute id tx).disbutes tx = true) := by
  refine ⟨?_, ?_, ?_⟩
  · intro e id tx hd
    exact resolve_noop e id tx (Or.inr (Or.inr (Or.inr hd)))
  · intro e id tx hd
    exact chargeback_noop e id tx (Or.inr (Or.inr (Or.inr hd)))
  · intro e id tx c hid hc htx _
    rw [dispute_applied e id tx c hid hc htx]
    exact ⟨upd_same _ _ _, upd_same _ _ _⟩

theorem c2_witness :
    (egAfterDeposit.disbutes 1 = false ∧ egAfterDeposit.resolve 1 1 = egAfterDeposit) ∧
    (egAfterDeposit.chargeback 1 1 = egAfterDeposit) ∧
    (egAfterDispute.disbutes 1 = true ∧
      (egAfterDispute.dispute 1 1).clients 1 =
        some { id := 1, available := 2 - 2 - 2, held := 0 + 2 + 2, total := 2,
               locked := false } ∧
      (egAfterDispute.dispute 1 1).disbutes 1 = true) :=
  ⟨⟨rfl, c2_amended_redundant_transitions.1 egAfterDeposit 1 1 rfl⟩,
   c2_amended_redundant_transitions.2.1 egAfterDeposit 1 1 rfl,
   ⟨rfl,
    c2_amended_redundant_transitions.2.2 egAfterDispute 1 1
      { id := 1, available := 2 - 2, held := 0 + 2, total := 2, locked := false }
      (by decide) rfl (by decide) rfl⟩⟩

/-- C3 counterexample: in the run Deposit(1, 1, 2.0) then Dispute(1, 2),
transaction 2 was never recorded by any deposit or withdrawal, yet the
Dispute sets the dispute flag of tx 2 to true — the event is not the
complete no-op the claim states. -/
theorem c3_counterexample :
    ((Engine.new.run [Transaction.Deposit 1 1 2, Transaction.Dispute 1 2]).getD
      Engine.new).disbutes 2 = true := rfl

/-- C3 (amended): a Dispute naming an account that does not exist (slot out
of range or empty) changes no state; a Dispute naming an existing account
and a transaction id never recorded (its dense ledger slot still holds the
initial 0) leaves every balance unchanged — it moves 0 — but sets the
dispute flag of tx to true instead of leaving it false. -/
theorem c3_amended_dispute_unknown :
    (∀ (e : Engine) (id tx : Nat), NCLIENTS ≤ id ∨ e.clients id = none →
      e.dispute id tx = e) ∧
    (∀ (e : Engine) (id tx : Nat) (c : Client), id < NCLIENTS → e.clients id = some c →
      tx < NTX → e.transactions tx = 0 →
      (e.dispute id tx).clients id = some c ∧ (e.dispute id tx).disbutes tx = true) := by
  refine ⟨?_, ?_⟩
  · intro e id tx h
    exact dispute_noop e id tx (by tauto)
  · intro e id tx c hid hc htx hz
    rw [dispute_applied e id tx c hid hc htx]
    refine ⟨?_, upd_same _ _ _⟩
    show upd e.clients id _ id = some c
    rw [upd_same, hz]
    congr 1
    cases c
    simp

theorem c3_witness :
    (NCLIENTS ≤ 70000 ∧ Engine.new.dispute 70000 3 = Engine.new) ∧
    (egAfterDeposit.transactions 2 = 0 ∧
      (egAfterDeposit.dispute 1 2).clients 1 =
        some { id := 1, available := 2, held := 0, total := 2, locked := false } ∧
      (egAfterDeposit.dispute 1 2).disbutes 2 = true) :=
  ⟨⟨by decide, c3_amended_dispute_unknown.1 Engine.new 70000 3 (Or.inl (by decide))⟩,
   ⟨rfl,
    c3_amended_dispute_unknown.2 egAfterDeposit 1 2
      { id := 1, available := 2, held := 0, total := 2, locked := false }
      (by decide) rfl (by decide) rfl⟩⟩

/-- C4 (the claim fails on the code): Engine::new allocates the clients
vector with u16::MAX = 65535 slots and the transactions vector with
u32::MAX = 4294967295 slots — each one slot short of its full id space —
so recording an amount during a Deposit or Withdrawal panics with an
out-of-bounds direct index (modelled as none) at client id 65535 or at
transaction id 4294967295. The bounds-checked lookups (stored amount,
dispute flag read) are total: dispute, resolve and chargeback at the
maximal transaction id are silent no-ops rather than panics. -/
theorem c4_record_panics_at_max_ids :
    Engine.new.handle_record (Transaction.Deposit 65535 7 1) = none ∧
    Engine.new.handle_record (Transaction.Withdrawal 65535 7 1) = none ∧
    Engine.new.handle_record (Transaction.Deposit 1 4294967295 1) = none ∧
    Engine.new.handle_record (Transaction.Withdrawal 1 4294967295 1) = none ∧
    egAfterDeposit.dispute 1 4294967295 = egAfterDeposit ∧
    egAfterDeposit.resolve 1 4294967295 = egAfterDeposit ∧
    egAfterDeposit.chargeback 1 4294967295 = egAfterDeposit :=
  ⟨rfl, rfl, rfl, rfl, rfl, rfl, rfl⟩

/-- C5: a Chargeback(id, tx) with an existing account, a stored amount for
tx (every tx < NTX carries one in the dense ledger; its value is the
claim's m) and the dispute flag currently set decreases total by m,
decreases held by m, sets locked to true and clears the dispute flag of
tx; in every other case — account slot out of range or empty, tx without a
stored amount (tx ≥ NTX), or tx not currently disputed — the event changes
no state at all. -/
theorem c5_chargeback_spec :
    (∀ (e : Engine) (id tx : Nat) (c : Client), id < NCLIENTS → e.clients id = some c →
      tx < NTX → e.disbutes tx = true →
      (e.chargeback id tx).clients id =
        some { c with total := c.total - e.transactions tx
                      held := c.held - e.transactions tx
                      locked := true } ∧
      (e.chargeback id tx).disbutes tx = false) ∧
    (∀ (e : Engine) (id tx : Nat),
      NCLIENTS ≤ id ∨ e.clients id = none ∨ NTX ≤ tx ∨ e.disbutes tx = false →
      e.chargeback id tx = e) := by
  refine ⟨?_, ?_⟩
  · intro e id tx c hid hc htx hd
    rw [chargeback_applied e id tx c hid hc htx hd]
    exact ⟨upd_same _ _ _, upd_same _ _ _⟩
  · intro e id tx h
    exact chargeback_noop e id tx h

theorem c5_witness :
    (egAfterDispute.disbutes 1 = true ∧
      (egAfterDispute.chargeback 1 1).clients 1 =
        some { id := 1, available := 2 - 2, held := 0 + 2 - 2, total := 2 - 2,
               locked := true } ∧
      (egAfterDispute.chargeback 1 1).disbutes 1 = false) ∧
    (Engine.new.clients 0 = none ∧ Engine.new.chargeback 0 0 = Engine.new) :=
  ⟨⟨rfl,
    c5_chargeback_spec.1 egAfterDispute 1 1
      { id := 1, available := 2 - 2, held := 0 + 2, total := 2, locked := false }
      (by decide) rfl (by decide) rfl⟩,
   ⟨rfl, c5_chargeback_spec.2 Engine.new 0 0 (Or.inr (Or.inl rfl))⟩⟩

/-- C6: once a client slot is locked it stays locked along any successful
run; a Deposit or Withdrawal naming a locked account changes nothing (the
whole engine is returned unchanged, so in particular available, held and
total are untouched); and Dispute, Resolve and Chargeback apply their
usual effects with no hypothesis about the locked flag — the lock is never
read on the dispute path, so they act on locked accounts exactly as on
unlocked ones. -/
theorem c6_locked_account :
    (∀ (e e1 : Engine) (id : Nat) (tr : List Transaction),
      (e.clients id).map Client.locked = some true → e.run tr = some e1 →
      (e1.clients id).map Client.locked = some true) ∧
    (∀ (e : Engine) (id tx : Nat) (a : ℚ) (c : Client), id < NCLIENTS →
      e.clients id = some c → c.locked = true →
      e.handle_record (Transaction.Deposit id tx a) = some e ∧
      e.handle_record (Transaction.Withdrawal id tx a) = some e) ∧
    (∀ (e : Engine) (id tx : Nat) (c : Client), id < NCLIENTS → e.clients id = some c →
      tx < NTX →
      (e.dispute id tx).clients id =
        some { c with available := c.available - e.transactions tx
                      held := c.held + e.transactions tx } ∧
      (e.dispute id tx).disbutes tx = true) ∧
    (∀ (e : Engine) (id tx : Nat) (c : Client), id < NCLIENTS → e.clients id = some c →
      tx < NTX → e.disbutes tx = true →
      (e.resolve id tx).clients id =
        some { c with available := c.available + e.transactions tx
                      held := c.held - e.transactions tx } ∧
      (e.resolve id tx).disbutes tx = false) ∧
    (∀ (e : Engine) (id tx : Nat) (c : Client), id < NCLIENTS → e.clients id = some c →
      tx < NTX → e.disbutes tx = true →
      (e.chargeback id tx).clients id =
        some { c with total := c.total - e.transactions tx
                      held := c.held - e.transactions tx
                      locked := true } ∧
      (e.chargeback id tx).disbutes tx = false) := by
  refine ⟨?_, ?_, ?_, ?_, ?_⟩
  · intro e e1 id tr hl h
    exact locked_run tr e e1 id hl h
  · intro e id tx a c hid hc hl
    exact ⟨transaction_locked_noop e id tx a c hid hc hl,
           transaction_locked_noop e id tx (-a) c hid hc hl⟩
  · intro e id tx c hid hc htx
    rw [dispute_applied e id tx c hid hc htx]
    exact ⟨upd_same _ _ _, upd_same _ _ _⟩
  · intro e id tx c hid hc htx hd
    rw [resolve_applied e id tx c hid hc htx hd]
    exact ⟨upd_same _ _ _, upd_same _ _ _⟩
  · intro e id tx c hid hc htx hd
    rw [chargeback_applied e id tx c hid hc htx hd]
    exact ⟨upd_same _ _ _, upd_same _ _ _⟩

theorem c6_witness :
    ((egLocked.clients 1).map Client.locked = some true ∧
      egLocked.run [Transaction.Deposit 1 9 5] = some egLocked ∧
      (egLocked.clients 1).map Client.locked = some true) ∧
    (egLocked.clients 1 = some egLockedClient ∧ egLockedClient.locked = true ∧
      egLocked.handle_record (Transaction.Deposit 1 9 5) = some egLocked ∧
      egLocked.handle_record (Transaction.Withdrawal 1 9 5) = some egLocked) ∧
    ((egLocked.dispute 1 1).clients 1 = some egLockedDisputedClient ∧
      (egLocked.dispute 1 1).disbutes 1 = true) ∧
    (egLockedDisputed.disbutes 1 = true ∧
      (egLockedDisputed.resolve 1 1).clients 1 =
        some { id := 1, available := 2 - 2 - 2 + 2, held := 0 + 2 - 2 + 2 - 2,
               total := 2 - 2, locked := true } ∧
      (egLockedDisputed.resolve 1 1).disbutes 1 = false) ∧
    ((egLockedDisputed.chargeback 1 1).clients 1 =
        some { id := 1, available := 2 - 2 - 2, held := 0 + 2 - 2 + 2 - 2,
               total := 2 - 2 - 2, locked := true } ∧
      (egLockedDisputed.chargeback 1 1).disbutes 1 = false) :=
  ⟨⟨rfl, rfl,
    c6_locked_account.1 egLocked egLocked 1 [Transaction.Deposit 1 9 5] rfl rfl⟩,
   ⟨rfl, rfl,
    (c6_locked_account.2.1 egLocked 1 9 5 egLockedClient (by decide) rfl rfl).1,
    (c6_locked_account.2.1 egLocked 1 9 5 egLockedClient (by decide) rfl rfl).2⟩,
   c6_locked_account.2.2.1 egLocked 1 1 egLockedClient (by decide) rfl (by decide),
   ⟨rfl,
    (c6_locked_account.2.2.2.1 egLockedDisputed 1 1 egLockedDisputedClient
      (by decide) rfl (by decide) rfl).1,
    (c6_locked_account.2.2.2.1 egLockedDisputed 1 1 egLockedDisputedClient
      (by decide) rfl (by decide) rfl).2⟩,
   c6_locked_account.2.2.2.2 egLockedDisputed 1 1 egLockedDisputedClient
     (by decide) rfl (by decide) rfl⟩

/-- C7: from any state in which the account exists and tx has a stored
amount (tx < NTX; the stored amount is the claim's m), Dispute(id, tx)
followed by Resolve(id, tx) returns the account slot to exactly the client
it held before the Dispute — in particular available and held are restored
exactly — and the dispute flag of tx ends false. -/
theorem c7_dispute_resolve_roundtrip (e : Engine) (id tx : Nat) (c : Client)
    (hid : id < NCLIENTS) (hc : e.clients id = some c) (htx : tx < NTX) :
    ((e.dispute id tx).resolve id tx).clients id = some c ∧
    ((e.dispute id tx).resolve id tx).disbutes tx = false := by
  rw [dispute_applied e id tx c hid hc htx]
  rw [resolve_applied _ id tx _ hid (upd_same _ _ _) htx (upd_same _ _ _)]
  constructor
  · show upd _ id _ id = some c
    rw [upd_same]
    congr 1
    cases c
    simp
  · exact upd_same _ _ _

theorem c7_witness :
    egAfterDeposit.clients 1 =
      some { id := 1, available := 2, held := 0, total := 2, locked := false } ∧
    ((egAfterDeposit.dispute 1 1).resolve 1 1).clients 1 =
      some { id := 1, available := 2, held := 0, total := 2, locked := false } ∧
    ((egAfterDeposit.dispute 1 1).resolve 1 1).disbutes 1 = false :=
  ⟨rfl,
   (c7_dispute_resolve_roundtrip egAfterDeposit 1 1
     { id := 1, available := 2, held := 0, total := 2, locked := false }
     (by decide) rfl (by decide)).1,
   (c7_dispute_resolve_roundtrip egAfterDeposit 1 1
     { id := 1, available := 2, held := 0, total := 2, locked := false }
     (by decide) rfl (by decide)).2⟩

/-- C8: for any existing account, a Deposit of amount a followed by a
Withdrawal of the same amount a under distinct transaction ids brings the
account's available and total back to exactly their values before the
Deposit (both when the account is locked — both events are no-ops — and
when it is unlocked, where the two additions cancel exactly). -/
theorem c8_deposit_withdrawal_roundtrip (e : Engine) (id tx1 tx2 : Nat) (a : ℚ)
    (c : Client) (hid : id < NCLIENTS) (hc : e.clients id = some c)
    (h1 : tx1 < NTX) (h2 : tx2 < NTX) (_hne : tx1 ≠ tx2) :
    (e.run [Transaction.Deposit id tx1 a, Transaction.Withdrawal id tx2 a]).bind
      (fun e1 => e1.availTotal id) = some (c.available, c.total) := by
  cases hl : c.locked with
  | true =>
    simp [Engine.run, Engine.handle_record, Engine.transaction, Engine.availTotal,
      hid, hc, hl]
  | false =>
    simp [Engine.run, Engine.handle_record, Engine.transaction, Engine.availTotal,
      hid, hc, hl, h1, h2, upd_same]

theorem c8_witness :
    egAfterDeposit.clients 1 =
      some { id := 1, available := 2, held := 0, total := 2, locked := false } ∧
    (2 : Nat) ≠ 3 ∧
    (egAfterDeposit.run [Transaction.Deposit 1 2 5, Transaction.Withdrawal 1 3 5]).bind
      (fun e1 => e1.availTotal 1) = some (2, 2) :=
  ⟨rfl, by decide,
   c8_deposit_withdrawal_roundtrip egAfterDeposit 1 2 3 5
     { id := 1, available := 2, held := 0, total := 2, locked := false }
     (by decide) rfl (by decide) (by decide) (by decide)⟩

/-- C9: the engine never ties a stored transaction to the account that
recorded it — the ledger keeps no owner, only an amount per transaction
id — so Dispute(A, tx) moves the stored amount of tx into account A's
balances (available decreases by m, held increases by m, tx marked
disputed) whatever account's deposit or withdrawal wrote that slot. The
witness instantiates a state in which a different account (B = 2) recorded
tx = 7, and account A = 1 nevertheless absorbs the move. -/
theorem c9_dispute_ignores_ownership (e : Engine) (A tx : Nat) (c : Client) (m : ℚ)
    (hA : A < NCLIENTS) (hc : e.clients A = some c) (htx : tx < NTX)
    (hm : e.transactions tx = m) :
    (e.dispute A tx).clients A =
      some { c with available := c.available - m, held := c.held + m } ∧
    (e.dispute A tx).disbutes tx = true := by
  subst hm
  rw [dispute_applied e A tx c hA hc htx]
  exact ⟨upd_same _ _ _, upd_same _ _ _⟩

theorem c9_witness :
    egCross.clients 2 =
      some { id := 2, available := 5, held := 0, total := 5, locked := false } ∧
    egCross.transactions 7 = 5 ∧
    egCross.clients 1 =
      some { id := 1, available := 3, held := 0, total := 3, locked := false } ∧
    (egCross.dispute 1 7).clients 1 =
      some { id := 1, available := 3 - 5, held := 0 + 5, total := 3, locked := false } ∧
    (egCross.dispute 1 7).disbutes 7 = true :=
  ⟨rfl, rfl, rfl,
   (c9_dispute_ignores_ownership egCross 1 7
     { id := 1, available := 3, held := 0, total := 3, locked := false } 5
     (by decide) rfl (by decide) rfl).1,
   (c9_dispute_ignores_ownership egCross 1 7
     { id := 1, available := 3, held := 0, total := 3, locked := false } 5
     (by decide) rfl (by decide) rfl).2⟩

/-- C10: an account's held balance can go negative. On the run
Deposit(1, 1, 2.0), Withdrawal(1, 2, 1.0), Dispute(1, 2): the withdrawal
stores -1 at tx 2; before the dispute account 1 has available = total = 1
and held = 0; the dispute increases available by the withdrawn amount
(2 + -1 - -1 = 1 + 1 = 2) and drives held to 0 + -1 = -1 < 0. -/
theorem c10_held_negative :
    ((Engine.new.run [Transaction.Deposit 1 1 2,
        Transaction.Withdrawal 1 2 1]).getD Engine.new).clients 1 =
      some { id := 1, available := 2 + -1, held := 0, total := 2 + -1,
             locked := false } ∧
    ((Engine.new.run [Transaction.Deposit 1 1 2,
        Transaction.Withdrawal 1 2 1]).getD Engine.new).transactions 2 = -1 ∧
    ((Engine.new.run [Transaction.Deposit 1 1 2, Transaction.Withdrawal 1 2 1,
        Transaction.Dispute 1 2]).getD Engine.new).clients 1 =
      some { id := 1, available := 2 + -1 - -1, held := 0 + -1, total := 2 + -1,
             locked := false } ∧
    (2 : ℚ) + -1 - -1 = (2 + -1) + 1 ∧
    (0 : ℚ) + -1 < 0 :=
  ⟨rfl, rfl, rfl, by norm_num, by norm_num⟩

end TA
